import Mathlib

/-!
Shallow embedding of the `sarah1893/notes` web application (`src/app.py`):
a Flask app serving static documentation files from a fixed document root,
plus an ACME HTTP-01 challenge endpoint.

Modelling choices:
* request paths are the URL path with the leading slash stripped, so the
  root `/` is the empty string;
* the filesystem is an association list from canonical absolute paths
  (segment lists) to file contents, so that "inside the document root"
  is expressible;
* the process environment (configuration store) is an association list of
  string pairs in enumeration order;
* `flask.send_from_directory` is embedded with werkzeug's documented
  semantics: `safe_join` rejects absolute paths and paths whose POSIX
  normalization begins with a parent-directory segment, then the file at
  the joined path is served, a missing file giving HTTP 404.
-/

/-- An HTTP response: status code and body. -/
structure Response where
  status : Nat
  body : String
deriving DecidableEq

/-- The environment / configuration store: ordered key-value string pairs. -/
abbrev Env := List (String × String)

/-- The filesystem: canonical absolute paths (segment lists) to contents. -/
abbrev Fs := List (List String × String)

/-- Flask surfaces `NotFound` as an HTTP 404 page; only the status matters
to the claims, so the 404 body is modelled as empty. -/
def notFound : Response := ⟨404, ""⟩

/-- Split a character list at every slash (how a POSIX relative path
decomposes into segments; the empty path yields the single segment `""`). -/
def splitAux (cur : List Char) : List Char → List String
  | [] => [String.mk cur.reverse]
  | c :: cs =>
    if c = '/' then String.mk cur.reverse :: splitAux [] cs
    else splitAux (c :: cur) cs

/-- The slash-separated segments of a request path. -/
def pathSegs (p : String) : List String := splitAux [] p.data

/-- POSIX path normalization (`posixpath.normpath`) of a relative segment
list, phrased as a left fold: empty and `.` segments are dropped, a `..`
pops the last retained segment or, when none remains, accumulates at the
front.  `dots` counts the leading `..` segments of the normalized result
and `acc` holds the remaining segments in reverse order. -/
def normCore (dots : Nat) (acc : List String) : List String → Nat × List String
  | [] => (dots, acc)
  | s :: rest =>
    if s = "" ∨ s = "." then normCore dots acc rest
    else if s = ".." then
      match acc with
      | [] => normCore (dots + 1) [] rest
      | _ :: ts => normCore dots ts rest
    else normCore dots (s :: acc) rest

/-- werkzeug `safe_join` applied to one untrusted path: reject absolute
paths and paths whose normalization begins with a parent-directory
segment; otherwise return the normalized segments. -/
def safeSegs (p : String) : Option (List String) :=
  if (pathSegs p).headD "." = "" then none
  else if (normCore 0 [] (pathSegs p)).1 = 0 then
    some (normCore 0 [] (pathSegs p)).2.reverse
  else none

/-- Canonical filesystem resolution of `DocumentRoot/P`: normalize the raw
segments of `P` against the absolute root `R`, parent segments popping
into `R` (at the filesystem root a further `..` is a no-op, as in POSIX).
This is the referee for where a request path really points on disk. -/
def resolveSegs (R : List String) (segs : List String) : List String :=
  (R.reverse.drop (normCore 0 [] segs).1).reverse ++ (normCore 0 [] segs).2.reverse

/-- `flask.send_from_directory(ROOT, path)`: serve the file at the safely
joined path below the document root `R`, or a 404. -/
def send_from_directory (R : List String) (fs : Fs) (p : String) : Response :=
  match safeSegs p with
  | none => notFound
  | some l =>
    match fs.lookup (R ++ l) with
    | some c => ⟨200, c⟩
    | none => notFound

/-- `static_proxy` (src/app.py lines 16-19): `send_from_directory(ROOT, path)`. -/
def static_proxy (R : List String) (fs : Fs) (p : String) : Response :=
  send_from_directory R fs p

/-- `index_redirection` (src/app.py lines 21-24): serve `index.html`. -/
def index_redirection (R : List String) (fs : Fs) : Response :=
  send_from_directory R fs "index.html"

/-- The URL prefix of ACME HTTP-01 challenge paths (leading slash stripped). -/
def chPfx : String := ".well-known/acme-challenge/"

/-- The token hardcoded in the `letsencrypt` route of src/app.py line 26. -/
def letsencryptToken : String := "39LkboWlzrvSn4bGSC-vx5Ea4FqKipU5QYcLKAn1hSM"

/-- The full (slash-stripped) path of the hardcoded `letsencrypt` route,
`/.well-known/acme-challenge/39LkboWlzrvSn4bGSC-vx5Ea4FqKipU5QYcLKAn1hSM`. -/
def letsencryptPath : String := chPfx ++ letsencryptToken

/-- The constant string returned by `letsencrypt` (src/app.py line 28). -/
def letsencryptBody : String :=
  "39LkboWlzrvSn4bGSC-vx5Ea4FqKipU5QYcLKAn1hSM.1MQ2tN97oDMCS6VnIiDMXAjUQwpiEoyNT2mUiGLhR7o"

/-- The request router of src/app.py: Flask matches the fixed rules `/` and
the literal challenge path before the catch-all `/<path:path>` rule. -/
def handleSrc (R : List String) (fs : Fs) (p : String) : Response :=
  if p = "" then index_redirection R fs
  else if p = letsencryptPath then ⟨200, letsencryptBody⟩
  else static_proxy R fs p

/-- Strip a leading run of characters: `takeAfter a s = some b` exactly
when `s = a ++ b`. -/
def takeAfter : List Char → List Char → Option (List Char)
  | [], s => some s
  | _ :: _, [] => none
  | a :: as, b :: bs => if a = b then takeAfter as bs else none

/-- Modelled from the spec: the repository's tests (src/app_test.py) import
`find_key` and `acme` from a later revision of app.py that is not under
src/, so the name filter of §4.2 step 1 is reconstructed from the spec's
words.  A configuration entry participates in token matching when its name
is exactly `ACME_TOKEN` or `ACME_TOKEN_<SUFFIX>` with a non-empty suffix. -/
def isAcmeTokenName (n : String) : Bool :=
  match takeAfter "ACME_TOKEN".data n.data with
  | none => false
  | some [] => true
  | some (c :: rest) => c = '_' && !rest.isEmpty

/-- Modelled from the spec: the companion key entry of §4.2 step 3 carries
the same suffix as the matched token entry — `ACME_TOKEN` pairs with
`ACME_KEY`, `ACME_TOKEN_<SUFFIX>` with `ACME_KEY_<SUFFIX>`. -/
def companionName (n : String) : String :=
  String.mk ("ACME_KEY".data ++ (takeAfter "ACME_TOKEN".data n.data).getD [])

/-- Modelled from the spec: `find_key` (imported by src/app_test.py but
absent from src/) resolves a challenge token per §4.2: scan the
configuration entries in enumeration order, take the first token-named
entry whose value equals the requested token, and return the value of its
companion key entry; `none` when no entry matches or the companion entry
is absent. -/
def find_key (env : Env) (token : String) : Option String :=
  match env.find? (fun kv => isAcmeTokenName kv.1 && kv.2 == token) with
  | none => none
  | some kv => env.lookup (companionName kv.1)

/-- Modelled from the spec: `acme` (imported by src/app_test.py but absent
from src/) answers a challenge request with the resolved key as a bare
text body and HTTP 200, or raises `NotFound` (HTTP 404). -/
def acme (env : Env) (token : String) : Response :=
  match find_key env token with
  | some k => ⟨200, k⟩
  | none => notFound

/-- Modelled from the spec: the request router of the later app revision,
whose challenge rule `/.well-known/acme-challenge/<token>` captures a
single slash-free path segment and dispatches it to `acme`; every other
non-root path is served by `static_proxy`. -/
def handleModel (R : List String) (fs : Fs) (env : Env) (p : String) : Response :=
  if p = "" then index_redirection R fs
  else
    match takeAfter chPfx.data p.data with
    | some tok =>
      if tok.contains '/' then static_proxy R fs p else acme env (String.mk tok)
    | none => static_proxy R fs p

/-- One request is a filesystem snapshot, a configuration snapshot and a
path; the served responses pair the src/app.py router with the
spec-modelled router, covering both revisions of the app. -/
def appResponse (R : List String) (q : Fs × Env × String) : Response × Response :=
  (handleSrc R q.1 q.2.2, handleModel R q.1 q.2.1 q.2.2)

/-- Serve a whole request sequence; the handlers keep no state across
requests, which the absence of any state accumulator makes explicit. -/
def serveAll (R : List String) (reqs : List (Fs × Env × String)) :
    List (Response × Response) :=
  reqs.map (appResponse R)

/-- A canonical path segment: non-empty and not a dot segment. -/
def okSeg (s : String) : Bool := s != "" && s != "." && s != ".."

/-- A canonical non-empty relative path, segment by segment. -/
def cleanSegs (l : List String) : Bool := !l.isEmpty && l.all okSeg

/-- `q` lies at or below the directory `R`. -/
abbrev isUnderRoot (R q : List String) : Prop := q.take R.length = R


/-! ### Helper lemmas -/

theorem takeAfter_append (a b : List Char) : takeAfter a (a ++ b) = some b := by
  induction a with
  | nil => rfl
  | cons x xs ih => simp [takeAfter, ih]

theorem strMk_data (s : String) : String.mk s.data = s := rfl

theorem append_ne_empty (s t : String) (h : s.data ≠ []) : s ++ t ≠ "" := by
  intro he
  have h2 : (s ++ t).data = "".data := congrArg String.data he
  rw [String.data_append] at h2
  exact h (List.append_eq_nil.mp h2).1

theorem chPfx_data_ne : chPfx.data ≠ [] := by decide

theorem append_left_inj (s t u : String) (h : s ++ t = s ++ u) : t = u := by
  have h2 : s.data ++ t.data = s.data ++ u.data := by
    have h3 := congrArg String.data h
    rwa [String.data_append, String.data_append] at h3
  exact String.ext (List.append_cancel_left h2)

theorem okSeg_spec {s : String} (h : okSeg s = true) : s ≠ "" ∧ s ≠ "." ∧ s ≠ ".." := by
  simp only [okSeg, Bool.and_eq_true, bne_iff_ne, ne_eq] at h
  exact ⟨h.1.1, h.1.2, h.2⟩

theorem okSeg_of (s : String) (h1 : ¬(s = "" ∨ s = ".")) (h2 : s ≠ "..") :
    okSeg s = true := by
  push_neg at h1
  simp only [okSeg, Bool.and_eq_true, bne_iff_ne, ne_eq]
  exact ⟨⟨h1.1, h1.2⟩, h2⟩

theorem normCore_clean (segs : List String) : ∀ (dots : Nat) (acc : List String),
    segs.all okSeg = true → normCore dots acc segs = (dots, segs.reverse ++ acc) := by
  induction segs with
  | nil => intro dots acc _; simp [normCore]
  | cons s rest ih =>
    intro dots acc h
    rw [List.all_cons, Bool.and_eq_true] at h
    obtain ⟨h1, h2, h3⟩ := okSeg_spec h.1
    unfold normCore
    rw [if_neg (by simp [h1, h2]), if_neg h3, ih dots (s :: acc) h.2]
    simp

theorem normCore_acc_ok (segs : List String) : ∀ (dots : Nat) (acc : List String),
    (∀ x ∈ acc, okSeg x = true) → ∀ x ∈ (normCore dots acc segs).2, okSeg x = true := by
  induction segs with
  | nil => intro dots acc h; simpa [normCore] using h
  | cons s rest ih =>
    intro dots acc h
    unfold normCore
    by_cases h1 : s = "" ∨ s = "."
    · rw [if_pos h1]; exact ih dots acc h
    · rw [if_neg h1]
      by_cases h2 : s = ".."
      · rw [if_pos h2]
        cases acc with
        | nil => exact ih _ _ (by intro x hx; cases hx)
        | cons t ts => exact ih dots ts (fun x hx => h x (List.mem_cons_of_mem t hx))
      · rw [if_neg h2]
        refine ih dots (s :: acc) ?_
        intro x hx
        rcases List.mem_cons.mp hx with rfl | hx
        · exact okSeg_of x h1 h2
        · exact h x hx

theorem safeSegs_clean (p : String) (h : cleanSegs (pathSegs p) = true) :
    safeSegs p = some (pathSegs p) := by
  unfold cleanSegs at h
  rw [Bool.and_eq_true] at h
  obtain ⟨hne, hall⟩ := h
  unfold safeSegs
  rw [normCore_clean _ _ _ hall]
  cases hsegs : pathSegs p with
  | nil => rw [hsegs] at hne; simp at hne
  | cons s rest =>
    have hs : okSeg s = true := by
      rw [hsegs] at hall
      exact List.all_eq_true.mp hall s (List.mem_cons_self s rest)
    have h1 : s ≠ "" := (okSeg_spec hs).1
    simp [h1]

theorem resolve_of_safe (R : List String) (p : String) (l : List String)
    (h : safeSegs p = some l) : resolveSegs R (pathSegs p) = R ++ l := by
  unfold safeSegs at h
  by_cases h1 : (pathSegs p).headD "." = ""
  · rw [if_pos h1] at h; exact absurd h (by simp)
  · rw [if_neg h1] at h
    by_cases h2 : (normCore 0 [] (pathSegs p)).1 = 0
    · rw [if_pos h2] at h
      have hl : (normCore 0 [] (pathSegs p)).2.reverse = l := by injection h
      unfold resolveSegs
      rw [h2, hl]
      simp
    · rw [if_neg h2] at h; exact absurd h (by simp)

theorem safeSegs_ok (p : String) (l : List String) (h : safeSegs p = some l) :
    ∀ x ∈ l, okSeg x = true := by
  unfold safeSegs at h
  by_cases h1 : (pathSegs p).headD "." = ""
  · rw [if_pos h1] at h; exact absurd h (by simp)
  · rw [if_neg h1] at h
    by_cases h2 : (normCore 0 [] (pathSegs p)).1 = 0
    · rw [if_pos h2] at h
      have hl : (normCore 0 [] (pathSegs p)).2.reverse = l := by injection h
      intro x hx
      rw [← hl] at hx
      exact normCore_acc_ok (pathSegs p) 0 [] (by intro x hx; cases hx) x
        (List.mem_reverse.mp hx)
    · rw [if_neg h2] at h; exact absurd h (by simp)

theorem find_decomp {α : Type} (p : α → Bool) (l : List α) (a : α) :
    l.find? p = some a ↔
      p a = true ∧ ∃ pre post, l = pre ++ a :: post ∧ ∀ x ∈ pre, p x = false := by
  induction l with
  | nil =>
    simp only [List.find?]
    constructor
    · intro h; cases h
    · rintro ⟨_, pre, post, heq, _⟩; cases pre <;> cases heq
  | cons y ys ih =>
    by_cases hy : p y = true
    · rw [List.find?_cons_of_pos _ hy]
      constructor
      · intro h
        have hya : y = a := by injection h
        subst hya
        exact ⟨hy, [], ys, rfl, by intro x hx; cases hx⟩
      · rintro ⟨hpa, pre, post, heq, hpre⟩
        cases pre with
        | nil =>
          have : y = a := by injection heq
          rw [this]
        | cons q qs =>
          have hyq : y = q := by injection heq
          have := hpre q (List.mem_cons_self q qs)
          rw [← hyq, hy] at this
          cases this
    · have hyf : ¬ (p y = true) := hy
      rw [List.find?_cons_of_neg _ hyf, ih]
      constructor
      · rintro ⟨hpa, pre, post, heq, hpre⟩
        refine ⟨hpa, y :: pre, post, by rw [heq]; rfl, ?_⟩
        intro x hx
        rcases List.mem_cons.mp hx with rfl | hx
        · exact Bool.eq_false_iff.mpr (by simpa using hy)
        · exact hpre x hx
      · rintro ⟨hpa, pre, post, heq, hpre⟩
        cases pre with
        | nil =>
          have hya : y = a := by injection heq
          rw [hya, hpa] at hy
          cases hy rfl
        | cons q qs =>
          have hys : ys = qs ++ a :: post := by injection heq
          exact ⟨hpa, qs, post, hys, fun x hx => hpre x (List.mem_cons_of_mem q hx)⟩

theorem handleModel_challenge (R : List String) (fs : Fs) (env : Env) (t : String)
    (h : t.data.contains '/' = false) :
    handleModel R fs env (chPfx ++ t) = acme env t := by
  unfold handleModel
  rw [if_neg (append_ne_empty _ _ chPfx_data_ne)]
  have hta : takeAfter chPfx.data (chPfx ++ t).data = some t.data := by
    rw [String.data_append]; exact takeAfter_append _ _
  rw [hta]
  show (if t.data.contains '/' = true then static_proxy R fs (chPfx ++ t)
    else acme env (String.mk t.data)) = acme env t
  rw [h]
  simp [strMk_data]

theorem handleSrc_challenge (R : List String) (fs : Fs) (t : String)
    (h : t ≠ letsencryptToken) :
    handleSrc R fs (chPfx ++ t) = static_proxy R fs (chPfx ++ t) := by
  unfold handleSrc
  rw [if_neg (append_ne_empty _ _ chPfx_data_ne), if_neg]
  intro he
  exact h (append_left_inj chPfx t letsencryptToken he)

theorem sfd_reject (R : List String) (fs : Fs) (p : String)
    (h : safeSegs p = none) : send_from_directory R fs p = notFound := by
  simp only [send_from_directory, h]

theorem sfd_200 (R : List String) (fs : Fs) (p : String) (l : List String) (c : String)
    (h : safeSegs p = some l) (hc : fs.lookup (R ++ l) = some c) :
    send_from_directory R fs p = ⟨200, c⟩ := by
  simp only [send_from_directory, h, hc]

theorem sfd_404 (R : List String) (fs : Fs) (p : String) (l : List String)
    (h : safeSegs p = some l) (hc : fs.lookup (R ++ l) = none) :
    send_from_directory R fs p = notFound := by
  simp only [send_from_directory, h, hc]

theorem acmePred_false_iff (kv : String × String) (t : String) :
    (isAcmeTokenName kv.1 && kv.2 == t) = false ↔
      ¬(isAcmeTokenName kv.1 = true ∧ kv.2 = t) := by
  rw [← Bool.not_eq_true]
  exact not_congr (by rw [Bool.and_eq_true, beq_iff_eq])

/-! ### Claim theorems -/

/-- Claim C1: a GET to the challenge path for a token returns HTTP 200 whose
body is the key string resolved from the configuration store (bare text
body), or HTTP 404 when no configuration entry's token value matches; in
particular, with `ACME_TOKEN="token"`, `ACME_KEY="key"` provisioned,
requesting the challenge path for `token` returns 200 with body `key`. -/
theorem acme_challenge_contract :
    (∀ (R : List String) (fs : Fs) (env : Env) (t k : String),
        t.data.contains '/' = false → find_key env t = some k →
        handleModel R fs env (chPfx ++ t) = ⟨200, k⟩) ∧
    (∀ (R : List String) (fs : Fs) (env : Env) (t : String),
        t.data.contains '/' = false → find_key env t = none →
        (handleModel R fs env (chPfx ++ t)).status = 404) ∧
    (∀ (R : List String) (fs : Fs),
        handleModel R fs [("ACME_TOKEN", "token"), ("ACME_KEY", "key")]
          (chPfx ++ "token") = ⟨200, "key"⟩) := by
  refine ⟨?_, ?_, ?_⟩
  · intro R fs env t k hs hf
    rw [handleModel_challenge R fs env t hs]
    simp only [acme, hf]
  · intro R fs env t hs hf
    rw [handleModel_challenge R fs env t hs]
    simp only [acme, hf]
    rfl
  · intro R fs
    rw [handleModel_challenge R fs _ _ (by decide)]
    decide

theorem acme_challenge_contract_witness :
    ("tok".data.contains '/' = false) ∧
    find_key [("ACME_TOKEN", "tok"), ("ACME_KEY", "k")] "tok" = some "k" ∧
    handleModel [] [] [("ACME_TOKEN", "tok"), ("ACME_KEY", "k")] (chPfx ++ "tok")
      = ⟨200, "k"⟩ ∧
    find_key [] "zzz" = none ∧
    (handleModel [] [] [] (chPfx ++ "zzz")).status = 404 :=
  ⟨by decide, by decide,
    acme_challenge_contract.1 [] [] _ "tok" "k" (by decide) (by decide),
    by decide,
    acme_challenge_contract.2.1 [] [] [] "zzz" (by decide) (by decide)⟩

/-- Claim C2: the ACME resolution algorithm scans the configuration entries
in enumeration order, matches the first entry named `ACME_TOKEN` or
`ACME_TOKEN_<SUFFIX>` (non-empty suffix) whose value equals the requested
token, and returns the value of the companion `ACME_KEY`/`ACME_KEY_<SUFFIX>`
entry with the same suffix; with only the suffixed pair
`ACME_TOKEN_ENV="token2"`, `ACME_KEY_ENV="key2"` provisioned, the challenge
path for `token2` answers 200 with body `key2`. -/
theorem acme_resolution_first_match :
    (∀ (env : Env) (t k : String),
        find_key env t = some k ↔
          ∃ name pre post, env = pre ++ (name, t) :: post ∧
            isAcmeTokenName name = true ∧
            (∀ kv ∈ pre, ¬(isAcmeTokenName kv.1 = true ∧ kv.2 = t)) ∧
            env.lookup (companionName name) = some k) ∧
    (∀ (R : List String) (fs : Fs),
        handleModel R fs [("ACME_TOKEN_ENV", "token2"), ("ACME_KEY_ENV", "key2")]
          (chPfx ++ "token2") = ⟨200, "key2"⟩) := by
  constructor
  · intro env t k
    constructor
    · intro h
      unfold find_key at h
      cases hf : env.find? (fun kv => isAcmeTokenName kv.1 && kv.2 == t) with
      | none => rw [hf] at h; cases h
      | some kv =>
        rw [hf] at h
        obtain ⟨hp, pre, post, heq, hpre⟩ := (find_decomp _ env kv).mp hf
        rw [Bool.and_eq_true, beq_iff_eq] at hp
        obtain ⟨n, v⟩ := kv
        have hname : isAcmeTokenName n = true := hp.1
        have hv : v = t := hp.2
        subst hv
        refine ⟨n, pre, post, heq, hname, ?_, h⟩
        intro x hx
        exact (acmePred_false_iff x v).mp (hpre x hx)
    · rintro ⟨name, pre, post, heq, hname, hpre, hlook⟩
      unfold find_key
      have hf : env.find? (fun kv => isAcmeTokenName kv.1 && kv.2 == t)
          = some (name, t) := by
        apply (find_decomp _ env (name, t)).mpr
        refine ⟨?_, pre, post, heq, ?_⟩
        · rw [Bool.and_eq_true, beq_iff_eq]; exact ⟨hname, rfl⟩
        · intro x hx; exact (acmePred_false_iff x t).mpr (hpre x hx)
      rw [hf]
      exact hlook
  · intro R fs
    rw [handleModel_challenge R fs _ _ (by decide)]
    decide

theorem acme_resolution_first_match_witness :
    find_key [("ACME_KEY_A", "x"), ("ACME_TOKEN_A", "t1"), ("ACME_TOKEN_B", "t1"),
        ("ACME_KEY_B", "y")] "t1" = some "x" ∧
    (∃ name pre post,
        ([("ACME_KEY_A", "x"), ("ACME_TOKEN_A", "t1"), ("ACME_TOKEN_B", "t1"),
            ("ACME_KEY_B", "y")] : Env) = pre ++ (name, "t1") :: post ∧
          isAcmeTokenName name = true ∧
          (∀ kv ∈ pre, ¬(isAcmeTokenName kv.1 = true ∧ kv.2 = "t1")) ∧
          ([("ACME_KEY_A", "x"), ("ACME_TOKEN_A", "t1"), ("ACME_TOKEN_B", "t1"),
              ("ACME_KEY_B", "y")] : Env).lookup (companionName name) = some "x") ∧
    handleModel [] [] [("ACME_TOKEN_ENV", "token2"), ("ACME_KEY_ENV", "key2")]
      (chPfx ++ "token2") = ⟨200, "key2"⟩ :=
  ⟨by decide,
    (acme_resolution_first_match.1 _ "t1" "x").mp (by decide),
    acme_resolution_first_match.2 [] []⟩

/-- Claim C3: when no `ACME_TOKEN*` configuration entry's value equals the
requested token — including an entirely absent configuration, and a
matching token entry whose companion key entry is missing, both of which
`find_key` resolves to `none` — the challenge response is exactly the 404
not-found response, so absent configuration is observationally identical
to a mismatched token. -/
theorem acme_no_match_notfound :
    (∀ (R : List String) (fs : Fs) (env : Env) (t : String),
        t.data.contains '/' = false → find_key env t = none →
        handleModel R fs env (chPfx ++ t) = ⟨404, ""⟩) ∧
    (∀ (env : Env) (t : String),
        (∀ kv ∈ env, isAcmeTokenName kv.1 = true → kv.2 ≠ t) →
        find_key env t = none) ∧
    (∀ (R : List String) (fs : Fs) (t : String), t.data.contains '/' = false →
        handleModel R fs [] (chPfx ++ t) = ⟨404, ""⟩) := by
  have h1 : ∀ (R : List String) (fs : Fs) (env : Env) (t : String),
      t.data.contains '/' = false → find_key env t = none →
      handleModel R fs env (chPfx ++ t) = ⟨404, ""⟩ := by
    intro R fs env t hs hf
    rw [handleModel_challenge R fs env t hs]
    simp only [acme, hf]
    rfl
  refine ⟨h1, ?_, fun R fs t hs => h1 R fs [] t hs rfl⟩
  intro env t h
  unfold find_key
  have hf : env.find? (fun kv => isAcmeTokenName kv.1 && kv.2 == t) = none := by
    rw [List.find?_eq_none]
    intro x hx hc
    rw [Bool.and_eq_true, beq_iff_eq] at hc
    exact h x hx hc.1 hc.2
  rw [hf]

theorem acme_no_match_notfound_witness :
    find_key [("ACME_TOKEN", "t0")] "t0" = none ∧
    handleModel [] [] [("ACME_TOKEN", "t0")] (chPfx ++ "t0") = ⟨404, ""⟩ ∧
    (∀ kv ∈ ([("ACME_TOKEN", "x")] : Env), isAcmeTokenName kv.1 = true → kv.2 ≠ "y") ∧
    find_key [("ACME_TOKEN", "x")] "y" = none :=
  ⟨by decide, acme_no_match_notfound.1 [] [] _ "t0" (by decide) (by decide),
    by decide, acme_no_match_notfound.2.1 _ "y" (by decide)⟩

/-- Claim C4: the configuration store is read fresh at lookup time, with no
caching: in a two-request sequence for the same token, the second response
is a function of the configuration snapshot accompanying the second request
alone — it is unchanged when the first snapshot varies and equals the
response computed from the second snapshot, so configuration changes take
effect on the next request without restart. -/
theorem acme_fresh_config_read :
    ∀ (R : List String) (fs : Fs) (env1 env1' env2 : Env) (p : String),
      (serveAll R [(fs, env1, p), (fs, env2, p)])[1]?
        = some (appResponse R (fs, env2, p)) ∧
      (serveAll R [(fs, env1, p), (fs, env2, p)])[1]?
        = (serveAll R [(fs, env1', p), (fs, env2, p)])[1]? ∧
      (∀ t : String, t.data.contains '/' = false →
        handleModel R fs env2 (chPfx ++ t) = acme env2 t) := by
  intro R fs env1 env1' env2 p
  exact ⟨rfl, rfl, fun t ht => handleModel_challenge R fs env2 t ht⟩

theorem acme_fresh_config_read_witness :
    ("tk".data.contains '/' = false) ∧
    handleModel ["r"] [] [("ACME_TOKEN", "tk"), ("ACME_KEY", "k2")] (chPfx ++ "tk")
      = acme [("ACME_TOKEN", "tk"), ("ACME_KEY", "k2")] "tk" :=
  ⟨by decide,
    (acme_fresh_config_read ["r"] [] [] []
      [("ACME_TOKEN", "tk"), ("ACME_KEY", "k2")] "x").2.2 "tk" (by decide)⟩

/-- Claim C5 (amended): for every canonical relative path below the document
root at which a file exists — other than the hardcoded challenge path,
which the `letsencrypt` route shadows — a GET returns HTTP 200 with exactly
that file's bytes. -/
theorem static_file_served :
    ∀ (R : List String) (fs : Fs) (p : String) (c : String),
      cleanSegs (pathSegs p) = true → p ≠ letsencryptPath →
      fs.lookup (R ++ pathSegs p) = some c →
      handleSrc R fs p = ⟨200, c⟩ := by
  intro R fs p c hclean hne hlook
  have hp : p ≠ "" := by
    intro he
    subst he
    rw [show pathSegs "" = [""] from by decide] at hclean
    exact absurd hclean (by decide)
  unfold handleSrc
  rw [if_neg hp, if_neg hne]
  exact sfd_200 R fs p (pathSegs p) c (safeSegs_clean p hclean) hlook

/-- Claim C5 counterexample: with a file provisioned on disk exactly at the
hardcoded challenge path, a GET for that path is answered by the hardcoded
route with the constant key string, not with the file's bytes. -/
theorem static_file_served_cex :
    cleanSegs (pathSegs letsencryptPath) = true ∧
    ([(["r"] ++ pathSegs letsencryptPath, "filebytes")] : Fs).lookup
      (["r"] ++ pathSegs letsencryptPath) = some "filebytes" ∧
    handleSrc ["r"] [(["r"] ++ pathSegs letsencryptPath, "filebytes")] letsencryptPath
      ≠ ⟨200, "filebytes"⟩ :=
  ⟨by decide, by decide, by decide⟩

theorem static_file_served_witness :
    cleanSegs (pathSegs "notes/x.html") = true ∧
    ("notes/x.html" ≠ letsencryptPath) ∧
    ([(["r", "notes", "x.html"], "B")] : Fs).lookup (["r"] ++ pathSegs "notes/x.html")
      = some "B" ∧
    handleSrc ["r"] [(["r", "notes", "x.html"], "B")] "notes/x.html" = ⟨200, "B"⟩ :=
  ⟨by decide, by decide, by decide,
    static_file_served ["r"] _ "notes/x.html" "B" (by decide) (by decide) (by decide)⟩

/-- Claim C6 (amended): a GET for a path at which no file exists on disk
resolves to HTTP 404 — except the hardcoded challenge path, which is always
answered 200 with the constant key string, and the root path, which is
served as index.html. -/
theorem static_missing_notfound :
    ∀ (R : List String) (fs : Fs) (p : String),
      fs.lookup (resolveSegs R (pathSegs p)) = none →
      p ≠ "" → p ≠ letsencryptPath →
      (handleSrc R fs p).status = 404 := by
  intro R fs p hnone hp hne
  unfold handleSrc
  rw [if_neg hp, if_neg hne]
  show (send_from_directory R fs p).status = 404
  cases hs : safeSegs p with
  | none => rw [sfd_reject R fs p hs]; rfl
  | some l =>
    rw [resolve_of_safe R p l hs] at hnone
    rw [sfd_404 R fs p l hs hnone]
    rfl

/-- Claim C6 counterexample: the hardcoded challenge path is answered 200
although no file exists there, and the root path is answered 200 (via
index.html) although no file exists at the root path itself. -/
theorem static_missing_notfound_cex :
    (([] : Fs).lookup (resolveSegs ["r"] (pathSegs letsencryptPath)) = none ∧
      (handleSrc ["r"] [] letsencryptPath).status = 200) ∧
    (([(["r", "index.html"], "I")] : Fs).lookup (resolveSegs ["r"] (pathSegs "")) = none ∧
      (handleSrc ["r"] [(["r", "index.html"], "I")] "").status = 200) :=
  ⟨⟨by decide, by decide⟩, ⟨by decide, by decide⟩⟩

theorem static_missing_notfound_witness :
    ([] : Fs).lookup (resolveSegs ["r"] (pathSegs "missing.html")) = none ∧
    ("missing.html" ≠ "") ∧ ("missing.html" ≠ letsencryptPath) ∧
    (handleSrc ["r"] [] "missing.html").status = 404 :=
  ⟨by decide, by decide, by decide,
    static_missing_notfound ["r"] [] "missing.html" (by decide) (by decide) (by decide)⟩

/-- Claim C7: the root path is served by returning index.html from the
document root — the same response as requesting index.html directly, not a
directory listing — and answers HTTP 200 with the file's content whenever
index.html exists. -/
theorem root_serves_index :
    ∀ (R : List String) (fs : Fs),
      handleSrc R fs "" = handleSrc R fs "index.html" ∧
      handleSrc R fs "" = index_redirection R fs ∧
      (∀ c, fs.lookup (R ++ ["index.html"]) = some c →
        handleSrc R fs "" = ⟨200, c⟩) := by
  intro R fs
  have hroute : handleSrc R fs "" = index_redirection R fs := by
    unfold handleSrc
    rw [if_pos rfl]
  have hstatic : handleSrc R fs "index.html" = index_redirection R fs := by
    unfold handleSrc
    rw [if_neg (by decide), if_neg (by decide)]
    rfl
  refine ⟨by rw [hroute, hstatic], hroute, ?_⟩
  intro c hc
  rw [hroute]
  show send_from_directory R fs "index.html" = ⟨200, c⟩
  exact sfd_200 R fs "index.html" ["index.html"] c (by decide) hc

theorem root_serves_index_witness :
    ([(["r", "index.html"], "I")] : Fs).lookup (["r"] ++ ["index.html"]) = some "I" ∧
    handleSrc ["r"] [(["r", "index.html"], "I")] "" = ⟨200, "I"⟩ :=
  ⟨by decide, (root_serves_index ["r"] _).2.2 "I" (by decide)⟩

/-- Claim C8: no request is ever served content from outside the document
root: whenever the canonical resolution of DocumentRoot/P does not lie
below the document root, the response is HTTP 404 (the traversal is
rejected before any file lookup), and every 200 response other than the
hardcoded challenge constant carries the contents of a file lying below
the document root at a parent-segment-free relative path. -/
theorem no_escape_document_root :
    (∀ (R : List String) (fs : Fs) (p : String),
        ¬ isUnderRoot R (resolveSegs R (pathSegs p)) →
        (handleSrc R fs p).status = 404) ∧
    (∀ (R : List String) (fs : Fs) (p : String),
        (handleSrc R fs p).status = 200 →
        p = letsencryptPath ∨
          ∃ l, (∀ x ∈ l, okSeg x = true) ∧
            fs.lookup (R ++ l) = some (handleSrc R fs p).body) := by
  constructor
  · intro R fs p hout
    by_cases hp : p = ""
    · exfalso
      apply hout
      subst hp
      have hres : resolveSegs R (pathSegs "") = R := by
        unfold resolveSegs
        rw [show pathSegs "" = [""] from by decide]
        rw [show normCore 0 [] [""] = (0, ([] : List String)) from by decide]
        simp
      rw [hres]
      exact List.take_length R
    · by_cases hl : p = letsencryptPath
      · exfalso
        apply hout
        subst hl
        have hcl : (pathSegs letsencryptPath).all okSeg = true := by decide
        have hres : resolveSegs R (pathSegs letsencryptPath)
            = R ++ pathSegs letsencryptPath := by
          unfold resolveSegs
          rw [normCore_clean _ _ _ hcl]
          simp
        rw [hres]
        exact List.take_left R (pathSegs letsencryptPath)
      · unfold handleSrc
        rw [if_neg hp, if_neg hl]
        show (send_from_directory R fs p).status = 404
        cases hs : safeSegs p with
        | none => rw [sfd_reject R fs p hs]; rfl
        | some l =>
          exfalso
          apply hout
          rw [resolve_of_safe R p l hs]
          exact List.take_left R l
  · intro R fs p h200
    by_cases hp : p = ""
    · right
      subst hp
      have hsafe : safeSegs "index.html" = some ["index.html"] := by decide
      refine ⟨["index.html"], by decide, ?_⟩
      cases hlk : fs.lookup (R ++ ["index.html"]) with
      | some c =>
        have hr : handleSrc R fs "" = ⟨200, c⟩ := by
          unfold handleSrc
          rw [if_pos rfl]
          exact sfd_200 R fs "index.html" ["index.html"] c hsafe hlk
        rw [hr]
      | none =>
        exfalso
        have hr : handleSrc R fs "" = notFound := by
          unfold handleSrc
          rw [if_pos rfl]
          exact sfd_404 R fs "index.html" ["index.html"] hsafe hlk
        rw [hr] at h200
        exact absurd h200 (by decide)
    · by_cases hl : p = letsencryptPath
      · left; exact hl
      · right
        have hsrc : handleSrc R fs p = send_from_directory R fs p := by
          unfold handleSrc
          rw [if_neg hp, if_neg hl]
          rfl
        rw [hsrc] at h200 ⊢
        cases hs : safeSegs p with
        | none =>
          rw [sfd_reject R fs p hs] at h200
          exact absurd h200 (by decide)
        | some l =>
          cases hlk : fs.lookup (R ++ l) with
          | none =>
            rw [sfd_404 R fs p l hs hlk] at h200
            exact absurd h200 (by decide)
          | some c =>
            refine ⟨l, safeSegs_ok p l hs, ?_⟩
            rw [sfd_200 R fs p l c hs hlk]
            exact hlk

theorem no_escape_document_root_witness :
    ¬ isUnderRoot ["srv", "root"]
        (resolveSegs ["srv", "root"] (pathSegs "../../etc/passwd")) ∧
    (handleSrc ["srv", "root"] [] "../../etc/passwd").status = 404 ∧
    (handleSrc ["r"] [(["r", "a.html"], "A")] "a.html").status = 200 ∧
    ("a.html" = letsencryptPath ∨ ∃ l, (∀ x ∈ l, okSeg x = true) ∧
      ([(["r", "a.html"], "A")] : Fs).lookup (["r"] ++ l)
        = some ((handleSrc ["r"] [(["r", "a.html"], "A")] "a.html").body)) :=
  ⟨by decide, no_escape_document_root.1 ["srv", "root"] [] "../../etc/passwd" (by decide),
    by decide, no_escape_document_root.2 ["r"] _ "a.html" (by decide)⟩

/-- Claim C9: the handlers are deterministic functions of the request and
the external state and keep no cross-request state: in any served request
sequence, two positions carrying the same (filesystem, configuration, path)
triple receive identical responses, status and body alike. -/
theorem handlers_deterministic :
    ∀ (R : List String) (reqs : List (Fs × Env × String)) (i j : Nat),
      reqs[i]? = reqs[j]? → (serveAll R reqs)[i]? = (serveAll R reqs)[j]? := by
  intro R reqs i j h
  unfold serveAll
  rw [List.getElem?_map, List.getElem?_map, h]

theorem handlers_deterministic_witness :
    (([(([] : Fs), ([] : Env), "a"), (([] : Fs), ([] : Env), "a")] :
        List (Fs × Env × String))[0]?
      = ([(([] : Fs), ([] : Env), "a"), (([] : Fs), ([] : Env), "a")] :
        List (Fs × Env × String))[1]?) ∧
    (serveAll ["r"] [(([] : Fs), ([] : Env), "a"), (([] : Fs), ([] : Env), "a")])[0]?
      = (serveAll ["r"] [(([] : Fs), ([] : Env), "a"), (([] : Fs), ([] : Env), "a")])[1]? :=
  ⟨by decide, handlers_deterministic ["r"] _ 0 1 (by decide)⟩

/-- Claim C10: under the src/app.py router, a challenge request for any
token other than the hardcoded literal is dispatched to the static file
handler with the full relative challenge path, the configuration store is
never consulted (the src response is independent of it), and the literal
token is answered with the fixed constant string, likewise independent of
the configuration store. -/
theorem src_challenge_route_dispatch :
    (∀ (R : List String) (fs : Fs) (t : String), t ≠ letsencryptToken →
        handleSrc R fs (chPfx ++ t) = static_proxy R fs (chPfx ++ t)) ∧
    (∀ (R : List String) (fs : Fs),
        handleSrc R fs (chPfx ++ letsencryptToken) = ⟨200, letsencryptBody⟩) ∧
    (∀ (R : List String) (fs : Fs) (env env' : Env) (p : String),
        (appResponse R (fs, env, p)).1 = (appResponse R (fs, env', p)).1) := by
  refine ⟨handleSrc_challenge, ?_, ?_⟩
  · intro R fs
    unfold handleSrc
    have he : chPfx ++ letsencryptToken = letsencryptPath := rfl
    rw [if_neg (append_ne_empty _ _ chPfx_data_ne), if_pos he]
  · intro R fs env env' p
    rfl

theorem src_challenge_route_dispatch_witness :
    ("foo" ≠ letsencryptToken) ∧
    handleSrc ["r"] [] (chPfx ++ "foo") = static_proxy ["r"] [] (chPfx ++ "foo") :=
  ⟨by decide, src_challenge_route_dispatch.1 ["r"] [] "foo" (by decide)⟩
